import Mathlib

/-!
# Verification of `serverfiles.py`

A shallow embedding of the local-mirror manager in `serverfiles.py`:
remote catalog access (`ServerFiles`), the local cache (`LocalFiles`),
sidecar metadata handling, the per-path lock table, and the staleness
check, together with theorems settling the specification claims.

Modelling conventions:
* The filesystem is an association list from paths (segment lists) to
  file data.  Python string paths `os.path.join(dir, *segs)` are
  represented by the segment list `dir ++ segs`; appending a suffix such
  as `".info"` or `".tmp"` to a path acts on its last segment, exactly as
  Python string concatenation on the joined path does.
* JSON values are the inductive `JsonVal`; a file on disk either holds
  the serialized text of a `JsonVal` (`FileData.jsonText`), text that does
  not parse as JSON (`FileData.malformed`), raw downloaded bytes
  (`FileData.blob`), or the result of archive materialization
  (`FileData.extractedFile` / `FileData.extractedDir`).  The decompressed
  payload itself is abstracted: a materialized artifact records the
  compression tag and the compressed source bytes, since no claim depends
  on the decoded contents.
* Python exceptions are the inductive `PyError`; fallible operations
  return `Except PyError`.  Stateful operations also return the
  filesystem as it stands when the exception is raised.
* Machine-level concerns (sockets, threads actually blocking, the
  `requests` transport) are outside the model; the remote server is a
  `Server` structure of response functions, and a 200 response to an
  `.info` request is assumed to carry a well-formed JSON object (no claim
  depends on a malformed remote info body).
-/

/-- Python exceptions raised by the code paths modelled here. -/
inductive PyError where
  | fileNotFoundError
  | ioError
  | keyError
  | valueError
  | typeError
  | unboundLocalError
  | isADirectoryError
deriving DecidableEq, Repr

/-- JSON-compatible values (`json.load` / `json.dump` domain).  Numbers are
modelled as integers; objects are association lists of string keys. -/
inductive JsonVal where
  | null
  | bool (b : Bool)
  | num (n : Int)
  | str (s : String)
  | arr (elems : List JsonVal)
  | obj (fields : List (String × JsonVal))

/-- Contents of one filesystem node. -/
inductive FileData where
  /-- a text file whose contents are the JSON serialization of `v` -/
  | jsonText (v : JsonVal)
  /-- a text file whose contents do not parse as JSON -/
  | malformed
  /-- raw bytes written by the streaming download -/
  | blob (bytes : List Nat)
  /-- a single file produced by `gz`/`bz2` decompression of `bytes` -/
  | extractedFile (tag : String) (bytes : List Nat)
  /-- a directory tree produced by `tar.gz`/`tar.bz2` extraction of `bytes` -/
  | extractedDir (tag : String) (bytes : List Nat)

/-- A filesystem path as its segments (`os.path.join` of the segments). -/
abbrev FPath := List String

/-- Filesystem state: an association list from paths to file contents. -/
abbrev FS := List (FPath × FileData)

/-- First entry stored at path `p`, if any (`os.path.exists` is `isSome`). -/
def fsLookup (p : FPath) : FS → Option FileData
  | [] => none
  | (q, d) :: rest => if q = p then some d else fsLookup p rest

/-- Delete the file at `p` (`os.remove` / `shutil.rmtree`). -/
def fsRemove (p : FPath) : FS → FS
  | [] => []
  | (q, d) :: rest => if q = p then fsRemove p rest else (q, d) :: fsRemove p rest

/-- Create or overwrite the file at `p` with data `d`. -/
def fsWrite (p : FPath) (d : FileData) (fs : FS) : FS :=
  (p, d) :: fsRemove p fs

/-- Well-formed filesystem: no duplicate paths. -/
def fsWF (fs : FS) : Prop := (fs.map Prod.fst).Nodup

/-- Python string concatenation on the last segment of a joined path:
`os.path.join(p) + suf`. -/
def addSuffix : FPath → String → FPath
  | [], suf => [suf]
  | [x], suf => [x ++ suf]
  | x :: y :: xs, suf => x :: addSuffix (y :: xs) suf

/-- `_open_file_info(fname)`: `json.load(open(fname, 'rt'))`. -/
def _open_file_info (fname : FPath) (fs : FS) : Except PyError JsonVal :=
  match fsLookup fname fs with
  | none => Except.error PyError.fileNotFoundError
  | some (FileData.jsonText v) => Except.ok v
  | some FileData.malformed => Except.error PyError.valueError
  | some (FileData.blob _) => Except.error PyError.valueError
  | some (FileData.extractedFile _ _) => Except.error PyError.valueError
  | some (FileData.extractedDir _ _) => Except.error PyError.isADirectoryError

/-- `_save_file_info(fname, info)`: `json.dump(info, open(fname, 'wt'))`. -/
def _save_file_info (fname : FPath) (info : JsonVal) (fs : FS) : FS :=
  fsWrite fname (FileData.jsonText info) fs

/-- Numeric value of a decimal digit character. -/
def digitVal (c : Char) : Nat := c.toNat - 48

/-- `%Y` directive: exactly four decimal digits (CPython `_strptime` uses
the pattern `\d\d\d\d`). -/
def parseY : List Char → Option (Nat × List Char)
  | a :: b :: c :: d :: rest =>
    if a.isDigit && b.isDigit && c.isDigit && d.isDigit then
      some (((digitVal a * 10 + digitVal b) * 10 + digitVal c) * 10 + digitVal d, rest)
    else none
  | _ => none

/-- A numeric `strptime` directive matching two digits when `ok2` accepts the
two-digit value, else one digit when `ok1` accepts it (the shape of the
`_strptime` alternations such as `1[0-2]|0[1-9]|[1-9]` for `%m`). -/
def parse2or1 (ok2 ok1 : Nat → Bool) : List Char → Option (Nat × List Char)
  | a :: b :: rest =>
    if a.isDigit && b.isDigit && ok2 (digitVal a * 10 + digitVal b) then
      some (digitVal a * 10 + digitVal b, rest)
    else if a.isDigit && ok1 (digitVal a) then
      some (digitVal a, b :: rest)
    else none
  | [a] => if a.isDigit && ok1 (digitVal a) then some (digitVal a, []) else none
  | [] => none

/-- A literal character of the format string. -/
def parseLit (c : Char) : List Char → Option (List Char)
  | x :: rest => if x = c then some rest else none
  | [] => none

/-- Characters matched by `\s` in the `_strptime` regular expression. -/
def isPySpace (c : Char) : Bool :=
  c = ' ' || c = '\t' || c = '\n' || c = '\r' || c = '\x0b' || c = '\x0c'

/-- Whitespace in the format string matches `\s+` (one or more). -/
def parseWs : List Char → Option (List Char)
  | x :: rest => if isPySpace x then some (rest.dropWhile isPySpace) else none
  | [] => none

/-- A parsed `datetime.datetime` value (time zone free, as produced by
`strptime` with the `%Y-%m-%d %H:%M:%S` format). -/
structure DT where
  year : Nat
  month : Nat
  day : Nat
  hour : Nat
  minute : Nat
  second : Nat
deriving DecidableEq, Repr

def isLeapYear (y : Nat) : Bool :=
  y % 4 = 0 && (y % 100 ≠ 0 || y % 400 = 0)

def daysInMonth (y m : Nat) : Nat :=
  if m = 2 then (if isLeapYear y then 29 else 28)
  else if m = 4 || m = 6 || m = 9 || m = 11 then 30
  else 31

/-- `datetime.datetime.strptime(s, "%Y-%m-%d %H:%M:%S")` on the characters of
`s`: the regular-expression match of each directive followed by the
`datetime` constructor's range checks (`MINYEAR`, day within month, seconds
at most 59; the regex itself admits leap seconds 60 and 61 which the
constructor then rejects). `none` models the `ValueError` raise. -/
def strptimeDT (l : List Char) : Option DT := do
  let (y, l) ← parseY l
  let l ← parseLit '-' l
  let (mo, l) ← parse2or1 (fun v => 1 ≤ v && v ≤ 12) (fun v => 1 ≤ v) l
  let l ← parseLit '-' l
  let (dy, l) ← parse2or1 (fun v => 1 ≤ v && v ≤ 31) (fun v => 1 ≤ v) l
  let l ← parseWs l
  let (h, l) ← parse2or1 (fun v => v ≤ 23) (fun _ => true) l
  let l ← parseLit ':' l
  let (mi, l) ← parse2or1 (fun v => v ≤ 59) (fun _ => true) l
  let l ← parseLit ':' l
  let (sec, l) ← parse2or1 (fun v => v ≤ 61) (fun _ => true) l
  if l.isEmpty && 1 ≤ y && dy ≤ daysInMonth y mo && sec ≤ 59 then
    some ⟨y, mo, dy, h, mi, sec⟩
  else none

/-- `datetime.datetime.strptime(s[:19], "%Y-%m-%d %H:%M:%S")`: the code
truncates the stored string to its first 19 characters before parsing. -/
def strptime19 (s : String) : Option DT := strptimeDT (s.data.take 19)

/-- The six fields in comparison order. -/
def dtKey (a : DT) : List Nat := [a.year, a.month, a.day, a.hour, a.minute, a.second]

/-- Lexicographic order on number lists. -/
def natListLt : List Nat → List Nat → Bool
  | [], [] => false
  | [], _ :: _ => true
  | _ :: _, [] => false
  | a :: as, b :: bs => a < b || (a = b && natListLt as bs)

/-- `datetime` comparison `a < b`: lexicographic on the six fields. -/
def dtLt (a b : DT) : Bool := natListLt (dtKey a) (dtKey b)

/-- The remote repository endpoint as response functions of the requested
path: the HTTP status and streamed body for a `GET` of the path itself, the
`content-length` header (absent when the server omits it), and the parsed
JSON-object body of a `GET` of `path + ".info"` (`none` models a non-200
info response). -/
structure Server where
  status : FPath → Nat
  body : FPath → List Nat
  contentLength : FPath → Option String
  infoResp : FPath → Option (List (String × JsonVal))

/-- `ServerFiles.info(*path)`: `GET path + ".info"`; a 200 response is parsed
as JSON, any other status yields the empty dictionary. -/
def ServerFiles.info (srv : Server) (path : FPath) : List (String × JsonVal) :=
  match srv.infoResp path with
  | some fields => fields
  | none => []

/-- Python dictionary subscript `v[k]` on a JSON value: `KeyError` when the
key is missing, `TypeError` when `v` is not a dictionary. -/
def pyGetItem (v : JsonVal) (k : String) : Except PyError JsonVal :=
  match v with
  | JsonVal.obj fields =>
    match fields.lookup k with
    | some x => Except.ok x
    | none => Except.error PyError.keyError
  | _ => Except.error PyError.typeError

/-- `datetime.datetime.strptime(v[:19], dt_fmt)` applied to a JSON field
value: slicing then parsing a non-string raises `TypeError`, a string that
does not match the format raises `ValueError`. -/
def pyStrptimeField (v : JsonVal) : Except PyError DT :=
  match v with
  | JsonVal.str s =>
    match strptime19 s with
    | some d => Except.ok d
    | none => Except.error PyError.valueError
  | _ => Except.error PyError.typeError

/-- `LocalFiles.localpath(*args)`: join of the cache root and the segments. -/
def LocalFiles.localpath (sfdir path : FPath) : FPath := sfdir ++ path

/-- `LocalFiles.info(*path)`: read and parse the sidecar
`localpath(*path) + '.info'`. -/
def LocalFiles.info (sfdir path : FPath) (fs : FS) : Except PyError JsonVal :=
  _open_file_info (addSuffix (LocalFiles.localpath sfdir path) ".info") fs

/-- The body of `LocalFiles.needs_update`'s `try` block: read the local
sidecar, parse its `datetime` (first 19 characters), fetch the remote
metadata, parse its `datetime`, and compare.  Every failure is the
exception Python would raise at that point. -/
def LocalFiles.needs_update_attempt (srv : Server) (sfdir path : FPath) (fs : FS) :
    Except PyError Bool := do
  let linfo ← LocalFiles.info sfdir path fs
  let lv ← pyGetItem linfo "datetime"
  let dtLocal ← pyStrptimeField lv
  let sinfo := ServerFiles.info srv path
  let sv ← match sinfo.lookup "datetime" with
    | some x => Except.ok x
    | none => Except.error PyError.keyError
  let dtServer ← pyStrptimeField sv
  Except.ok (dtLt dtLocal dtServer)

/-- `LocalFiles.needs_update(*path)`: the `try` block with handlers
`except FileNotFoundError: return True` and `except KeyError: return True`;
any other exception (in particular the `ValueError` from an unparseable
`datetime` or a malformed sidecar) propagates to the caller. -/
def LocalFiles.needs_update (srv : Server) (sfdir path : FPath) (fs : FS) :
    Except PyError Bool :=
  match LocalFiles.needs_update_attempt srv sfdir path fs with
  | Except.error PyError.fileNotFoundError => Except.ok true
  | Except.error PyError.keyError => Except.ok true
  | r => r

/-- A remote catalog whose metadata for every path carries a well-formed
timestamp. -/
def c1srv : Server where
  status := fun _ => 200
  body := fun _ => []
  contentLength := fun _ => some "0"
  infoResp := fun _ => some [("datetime", JsonVal.str "2020-01-01 00:00:00")]

/-- A cache holding, for path `["f"]` under root `["cache"]`, a sidecar whose
`datetime` value is not in the `%Y-%m-%d %H:%M:%S` format. -/
def c1fs : FS :=
  [(["cache", "f.info"], FileData.jsonText (JsonVal.obj [("datetime", JsonVal.str "garbage")]))]

/-- `int(s)` for a decimal string: surrounding whitespace stripped, optional
sign, then one or more digits; anything else raises `ValueError` (`none`). -/
def digitsVal (l : List Char) : Option Nat :=
  if !l.isEmpty && l.all Char.isDigit then
    some (l.foldl (fun a c => a * 10 + digitVal c) 0)
  else none

def pyInt (s : String) : Option Int :=
  let l := s.data.dropWhile isPySpace
  let l := (l.reverse.dropWhile isPySpace).reverse
  match l with
  | '-' :: rest => (digitsVal rest).map (fun n => -(n : Int))
  | '+' :: rest => (digitsVal rest).map (fun n => (n : Int))
  | _ => (digitsVal l).map (fun n => (n : Int))

/-- `ServerFiles.download(*path, target=target)`: raise `FileNotFoundError`
on a 404 status and `IOError` on any other non-200 status; then
`size = int(fdown.getheader('content-length'))`, which raises `TypeError`
when the header is absent (`int(None)`) and `ValueError` when it is not a
number; the streaming loop runs only when `size > 0` and reads the whole
body, which is then copied from the unnamed temporary file to `target`.
The returned filesystem is the state at the point the exception is raised,
so a failed transfer leaves it untouched.  (`_create_path` on the parent
directory is not represented: directories are implicit in the path-keyed
filesystem model and it never touches the target path itself.) -/
def ServerFiles.download (srv : Server) (path target : FPath) (fs : FS) :
    Except PyError Unit × FS :=
  if srv.status path = 404 then (Except.error PyError.fileNotFoundError, fs)
  else if srv.status path ≠ 200 then (Except.error PyError.ioError, fs)
  else
    match srv.contentLength path with
    | none => (Except.error PyError.typeError, fs)
    | some h =>
      match pyInt h with
      | none => (Except.error PyError.valueError, fs)
      | some size =>
        (Except.ok (), fsWrite target (FileData.blob (if 0 < size then srv.body path else [])) fs)

/-- Ordered milestones of one `LocalFiles.download` run, in the order the
code reaches them: the byte transfer returning successfully, the sidecar
write (`_save_file_info`), opening the archive, `extractall` /
`copyfileobj` returning, and `os.remove(target + ".tmp")`. -/
inductive Ev where
  | transferDone
  | sidecarSaved
  | extractStarted
  | extractDone
  | tmpDeleted
deriving DecidableEq, Repr

/-- Bytes stored at a path, for reading the downloaded temporary blob. -/
def blobBytes : Option FileData → List Nat
  | some (FileData.blob b) => b
  | _ => []

/-- The `if extract:` block of `LocalFiles.download`, dispatching on the
`compression` value: `tar.gz`/`tar.bz2` create the target directory and
expand the archive into it, `gz`/`bz2` decompress into a single file; in
either case `f.close()` and `os.remove(target + ".tmp")` follow.  For any
other value no branch binds `f`, so `f.close()` raises
`UnboundLocalError` (there is no dedicated unsupported-compression error
in the code), leaving the already written sidecar and the temporary blob
in place. -/
def extractStep (comp : JsonVal) (target : FPath) (fs : FS) :
    Except PyError Unit × FS × List Ev :=
  let tmp := addSuffix target ".tmp"
  match comp with
  | JsonVal.str "tar.gz" =>
    (Except.ok (),
     fsRemove tmp (fsWrite target (FileData.extractedDir "tar.gz" (blobBytes (fsLookup tmp fs))) fs),
     [Ev.extractStarted, Ev.extractDone, Ev.tmpDeleted])
  | JsonVal.str "tar.bz2" =>
    (Except.ok (),
     fsRemove tmp (fsWrite target (FileData.extractedDir "tar.bz2" (blobBytes (fsLookup tmp fs))) fs),
     [Ev.extractStarted, Ev.extractDone, Ev.tmpDeleted])
  | JsonVal.str "gz" =>
    (Except.ok (),
     fsRemove tmp (fsWrite target (FileData.extractedFile "gz" (blobBytes (fsLookup tmp fs))) fs),
     [Ev.extractStarted, Ev.extractDone, Ev.tmpDeleted])
  | JsonVal.str "bz2" =>
    (Except.ok (),
     fsRemove tmp (fsWrite target (FileData.extractedFile "bz2" (blobBytes (fsLookup tmp fs))) fs),
     [Ev.extractStarted, Ev.extractDone, Ev.tmpDeleted])
  | _ => (Except.error PyError.unboundLocalError, fs, [])

/-- `LocalFiles.download(*path, extract=xtract)`: fetch the remote metadata,
decide whether to extract (`extract and "compression" in info`), stream the
bytes to `target + ".tmp"` when extracting and to `target` otherwise,
persist the metadata as the sidecar, then run the extraction block.  The
result carries the outcome, the filesystem at the end (or at the raise
point), and the milestone trace. -/
def LocalFiles.download (srv : Server) (sfdir path : FPath) (xtract : Bool) (fs : FS) :
    Except PyError Unit × FS × List Ev :=
  let info := ServerFiles.info srv path
  let doExtract := xtract && (info.lookup "compression").isSome
  let target := LocalFiles.localpath sfdir path
  let dlTarget := if doExtract then addSuffix target ".tmp" else target
  match ServerFiles.download srv path dlTarget fs with
  | (Except.error e, fs1) => (Except.error e, fs1, [])
  | (Except.ok _, fs1) =>
    let fs2 := _save_file_info (addSuffix target ".info") (JsonVal.obj info) fs1
    if doExtract then
      match info.lookup "compression" with
      | some comp =>
        match extractStep comp target fs2 with
        | (r, fs3, evs) => (r, fs3, [Ev.transferDone, Ev.sidecarSaved] ++ evs)
      | none => (Except.ok (), fs2, [Ev.transferDone, Ev.sidecarSaved])
    else (Except.ok (), fs2, [Ev.transferDone, Ev.sidecarSaved])

/-- A remote endpoint answering 404 for every path. -/
def c2srv : Server where
  status := fun _ => 404
  body := fun _ => []
  contentLength := fun _ => none
  infoResp := fun _ => none

/-- A 200 response that omits the `content-length` header. -/
def c5srv : Server where
  status := fun _ => 200
  body := fun _ => [7]
  contentLength := fun _ => none
  infoResp := fun _ => none

/-- A remote file whose metadata declares the `gz` compression tag. -/
def c3srv : Server where
  status := fun _ => 200
  body := fun _ => [1, 2, 3]
  contentLength := fun _ => some "3"
  infoResp := fun _ =>
    some [("datetime", JsonVal.str "2020-01-01 00:00:00"), ("compression", JsonVal.str "gz")]

/-- `os.path.isdir` on what is stored at a path: only a materialized
directory tree is a directory. -/
def isDirData : Option FileData → Bool
  | some (FileData.extractedDir _ _) => true
  | _ => false

/-- `os.path.isfile` on what is stored at a path. -/
def isFileData : Option FileData → Bool
  | some (FileData.extractedDir _ _) => false
  | some _ => true
  | none => false

/-- `LocalFiles.remove(*path)`: require the sidecar to exist (else raise
`FileNotFoundError`); then, inside one `try` block, delete the artifact
(`shutil.rmtree` for a directory, `os.remove` for a file) and then the
sidecar.  `osFail q` says the OS-level deletion of `q` raises `OSError`;
the single `except OSError` handler prints the failure (the returned
flag) and swallows it, so a failure while deleting the artifact skips the
sidecar deletion. -/
def LocalFiles.remove (osFail : FPath → Bool) (sfdir path : FPath) (fs : FS) :
    Except PyError Unit × FS × Bool :=
  let p := LocalFiles.localpath sfdir path
  let sc := addSuffix p ".info"
  if (fsLookup sc fs).isSome then
    let step1 : Option FS :=
      if isDirData (fsLookup p fs) then
        (if osFail p then none else some (fsRemove p fs))
      else if isFileData (fsLookup p fs) then
        (if osFail p then none else some (fsRemove p fs))
      else some fs
    match step1 with
    | none => (Except.ok (), fs, true)
    | some fs1 =>
      if osFail sc then (Except.ok (), fs1, true)
      else (Except.ok (), fsRemove sc fs1, false)
  else (Except.error PyError.fileNotFoundError, fs, false)

/-- A cache entry: a plain-file artifact with its sidecar. -/
def c6fs : FS :=
  [(["cache", "f"], FileData.blob [1]),
   (["cache", "f.info"], FileData.jsonText (JsonVal.obj []))]

/-- Deletion of the artifact (and only the artifact) fails at OS level. -/
def c6fail (q : FPath) : Bool := q = ["cache", "f"]

/-- Split a non-empty segment list into its directory part and file name. -/
def splitLast : List String → Option (List String × String)
  | [] => none
  | [x] => some ([], x)
  | x :: y :: xs => (splitLast (y :: xs)).map (fun pr => (x :: pr.1, pr.2))

/-- `f[-5:] == '.info'`: the last five characters (or the whole string when
shorter) equal `".info"`. -/
def hasInfoSuffix (s : String) : Bool :=
  String.mk (s.data.drop (s.data.length - 5)) = ".info"

/-- `f[:-5]`: the string without its last five characters. -/
def dropSuffix5 (s : String) : String := String.mk (s.data.take (s.data.length - 5))

/-- A concrete cache: one valid entry `["a", "f"]`, one sidecar without an
artifact, one artifact without a sidecar, and one malformed sidecar with
its artifact. -/
def c7fs : FS :=
  [(["cache", "a", "f"], FileData.blob [1]),
   (["cache", "a", "f.info"], FileData.jsonText (JsonVal.obj [])),
   (["cache", "a", "orphan.info"], FileData.jsonText (JsonVal.obj [])),
   (["cache", "a", "bare"], FileData.blob [2]),
   (["cache", "a", "bad"], FileData.blob [3]),
   (["cache", "a", "bad.info"], FileData.malformed)]

/-- Which constructor a lock object was built by (`threading.Lock` vs
`threading.RLock`). -/
inductive LockKind where
  | plain
  | rlock
deriving DecidableEq, Repr

/-- One mutual-exclusion object; `id` is its identity (`locks[key] is
locks[key]` in Python), `kind` records reentrancy. -/
structure LockObj where
  id : Nat
  kind : LockKind
deriving DecidableEq, Repr

/-- The closure state of `_keyed_lock(lock_constructor)`: the captured
constructor, the `locks` dictionary (insertion ordered), and a supply of
fresh identities for newly constructed lock objects. -/
structure LockTable where
  ctor : LockKind
  locks : List (String × LockObj)
  next : Nat
deriving Repr

/-- Dictionary lookup `locks[key]` / `key in locks`. -/
def tblLookup (k : String) : List (String × LockObj) → Option LockObj
  | [] => none
  | (k2, l) :: rest => if k2 = k then some l else tblLookup k rest

/-- `_keyed_lock(lock_constructor)`: a fresh closure with an empty registry. -/
def _keyed_lock (ctor : LockKind) : LockTable :=
  { ctor := ctor, locks := [], next := 0 }

/-- `get_lock(key)`: under the registry's internal mutex, construct and store
a lock on first use of `key`, then return the stored lock. -/
def get_lock (k : String) (t : LockTable) : LockObj × LockTable :=
  match tblLookup k t.locks with
  | some l => (l, t)
  | none =>
    ({ id := t.next, kind := t.ctor },
     { ctor := t.ctor, locks := t.locks ++ [(k, { id := t.next, kind := t.ctor })],
       next := t.next + 1 })

/-- `_get_lock = _keyed_lock(threading.RLock)`: the module-level registry
hands out reentrant locks. -/
def _get_lock_init : LockTable := _keyed_lock LockKind.rlock

/-- Registry invariant: stored identities are below the fresh supply and
carry the registry's constructor kind, keys are unique, and identities
determine keys. -/
def LockTable.WF (t : LockTable) : Prop :=
  (∀ e ∈ t.locks, e.2.id < t.next ∧ e.2.kind = t.ctor) ∧
  (t.locks.map Prod.fst).Nodup ∧
  ∀ e1 ∈ t.locks, ∀ e2 ∈ t.locks, e1.2.id = e2.2.id → e1.1 = e2.1

/-- A remote file whose metadata declares the unsupported compression tag
`xz`. -/
def c4srv : Server where
  status := fun _ => 200
  body := fun _ => [9]
  contentLength := fun _ => some "1"
  infoResp := fun _ =>
    some [("compression", JsonVal.str "xz"), ("datetime", JsonVal.str "2020-01-01 00:00:00")]

/-- `os.path.relpath(q, start=dir)` split into segments (`_split_path`),
defined only when `q` lies strictly under `dir`. -/
def relUnder : FPath → FPath → Option FPath
  | [], [] => none
  | [], q :: qs => some (q :: qs)
  | _ :: _, [] => none
  | d :: ds, x :: xs => if x = d then relUnder ds xs else none

/-- One iteration of the `os.walk` loop body of `LocalFiles.listfiles` for
the file `e`: if `e` lies under the listed directory, is not itself a
directory, its name ends in `".info"`, the corresponding artifact exists,
and its contents parse as JSON (`_open_file_info` inside the
`try`/`except ValueError`), yield the relative path of the artifact;
otherwise nothing. -/
def listEntry (dir base : FPath) (fs : FS) (e : FPath × FileData) : Option FPath :=
  match relUnder dir e.1 with
  | none => none
  | some rel =>
    match splitLast rel with
    | none => none
    | some (ds, f) =>
      if isDirData (some e.2) then none
      else if hasInfoSuffix f then
        if (fsLookup (dir ++ ds ++ [dropSuffix5 f]) fs).isSome then
          match e.2 with
          | FileData.jsonText _ => some (base ++ ds ++ [dropSuffix5 f])
          | _ => none
        else none
      else none

/-- `LocalFiles.listfiles(*path)`: walk the local directory and collect, for
every `.info` sidecar file whose artifact exists and whose contents parse
as JSON, the artifact's relative path as segments. -/
def LocalFiles.listfiles (sfdir base : FPath) (fs : FS) : List FPath :=
  fs.filterMap (listEntry (LocalFiles.localpath sfdir base) base fs)

/-- **C1**: the claim (and the function's own docstring) says the staleness
check returns `true` when the local sidecar's `datetime` cannot be parsed;
the code instead lets the `ValueError` from `strptime` escape, because the
`try` block only handles `FileNotFoundError` and `KeyError`.  At a sidecar
whose `datetime` is the unparseable string `"garbage"`, `needs_update`
raises `ValueError` rather than returning `true`. -/
theorem needs_update_valueerror_on_unparseable_datetime :
    LocalFiles.needs_update c1srv ["cache"] ["f"] c1fs = Except.error PyError.valueError := by
  rfl

example : strptime19 "2020-01-01 00:00:00" = some ⟨2020, 1, 1, 0, 0, 0⟩ := by rfl
example : strptime19 "2021-12-31 23:59:59.250" = some ⟨2021, 12, 31, 23, 59, 59⟩ := by rfl
example : strptime19 "2021-02-29 00:00:00" = none := by rfl
example : strptime19 "2020-1-1 3:4:5" = some ⟨2020, 1, 1, 3, 4, 5⟩ := by rfl
example : strptime19 "garbage" = none := by rfl

/-- **C2**: when the byte transfer fails — HTTP 404 raising
`FileNotFoundError` (`NotFound`), any other non-200 status raising `IOError`
(`TransferFailed`) — the failure propagates out of `LocalFiles.download`
and the filesystem is returned exactly as it was: no partial artifact and
no sidecar appears at the final target path, the cache entry's state is
unchanged. -/
theorem download_failure_propagates_state_unchanged (srv : Server) (sfdir path : FPath)
    (xtract : Bool) (fs : FS) (h : srv.status path ≠ 200) :
    LocalFiles.download srv sfdir path xtract fs =
      (Except.error (if srv.status path = 404 then PyError.fileNotFoundError else PyError.ioError),
       fs, []) := by
  unfold LocalFiles.download ServerFiles.download
  by_cases h404 : srv.status path = 404 <;> simp [h404, h]

theorem tblLookup_nil (k : String) : tblLookup k [] = none := rfl

theorem tblLookup_cons (k a1 : String) (a2 : LockObj) (rest : List (String × LockObj)) :
    tblLookup k ((a1, a2) :: rest) = if a1 = k then some a2 else tblLookup k rest := rfl

theorem tblLookup_mem (k : String) (v : LockObj) :
    ∀ l : List (String × LockObj), tblLookup k l = some v → (k, v) ∈ l := by
  intro l
  induction l with
  | nil => intro h; simp [tblLookup] at h
  | cons a rest ih =>
    obtain ⟨a1, a2⟩ := a
    intro h
    rw [tblLookup_cons] at h
    by_cases ha : a1 = k
    · rw [if_pos ha] at h
      injection h with h2
      rw [← ha, ← h2]
      exact List.mem_cons_self _ _
    · rw [if_neg ha] at h
      exact List.mem_cons_of_mem _ (ih h)

theorem tblLookup_none_not_mem (k : String) :
    ∀ l : List (String × LockObj), tblLookup k l = none → k ∉ l.map Prod.fst := by
  intro l
  induction l with
  | nil => intro _ h; cases h
  | cons a rest ih =>
    obtain ⟨a1, a2⟩ := a
    intro h hm
    rw [tblLookup_cons] at h
    by_cases ha : a1 = k
    · rw [if_pos ha] at h
      cases h
    · rw [if_neg ha] at h
      rw [List.map_cons] at hm
      rcases List.mem_cons.mp hm with h1 | h2
      · exact ha h1.symm
      · exact ih h h2

theorem tblLookup_append_ne (k k2 : String) (h : ¬ (k2 = k)) (v : LockObj) :
    ∀ l : List (String × LockObj), tblLookup k2 (l ++ [(k, v)]) = tblLookup k2 l := by
  intro l
  induction l with
  | nil =>
    have hk : ¬ (k = k2) := fun hh => h hh.symm
    rw [List.nil_append, tblLookup_cons, if_neg hk]
  | cons a rest ih =>
    obtain ⟨a1, a2⟩ := a
    rw [List.cons_append, tblLookup_cons, tblLookup_cons, ih]

theorem tblLookup_append_self (k : String) (v : LockObj) :
    ∀ l : List (String × LockObj), tblLookup k l = none →
      tblLookup k (l ++ [(k, v)]) = some v := by
  intro l
  induction l with
  | nil => intro _; rw [List.nil_append, tblLookup_cons, if_pos rfl]
  | cons a rest ih =>
    obtain ⟨a1, a2⟩ := a
    intro h
    rw [tblLookup_cons] at h
    by_cases ha : a1 = k
    · rw [if_pos ha] at h
      cases h
    · rw [if_neg ha] at h
      rw [List.cons_append, tblLookup_cons, if_neg ha]
      exact ih h

theorem get_lock_of_some (k : String) (t : LockTable) (l : LockObj)
    (h : tblLookup k t.locks = some l) : get_lock k t = (l, t) := by
  unfold get_lock
  rw [h]

theorem get_lock_of_none (k : String) (t : LockTable)
    (h : tblLookup k t.locks = none) :
    get_lock k t =
      ({ id := t.next, kind := t.ctor },
       { ctor := t.ctor, locks := t.locks ++ [(k, { id := t.next, kind := t.ctor })],
         next := t.next + 1 }) := by
  unfold get_lock
  rw [h]

theorem fsLookup_fsWrite_self (p : FPath) (d : FileData) (fs : FS) :
    fsLookup p (fsWrite p d fs) = some d := by
  simp [fsWrite, fsLookup]

theorem fsLookup_fsRemove_self (p : FPath) (fs : FS) :
    fsLookup p (fsRemove p fs) = none := by
  induction fs with
  | nil => rfl
  | cons e rest ih =>
    obtain ⟨k, d⟩ := e
    by_cases hk : k = p
    · simpa [fsRemove, hk] using ih
    · simpa [fsRemove, fsLookup, hk] using ih

theorem fsLookup_fsRemove_ne (p : FPath) (fs : FS) (q : FPath) (h : q ≠ p) :
    fsLookup q (fsRemove p fs) = fsLookup q fs := by
  induction fs with
  | nil => rfl
  | cons e rest ih =>
    obtain ⟨k, d⟩ := e
    by_cases hk : k = p
    · subst hk
      have hpq : ¬ (k = q) := fun hq => h hq.symm
      simpa [fsRemove, fsLookup, hpq] using ih
    · by_cases hkq : k = q
      · subst hkq
        simp [fsRemove, fsLookup, hk]
      · simpa [fsRemove, fsLookup, hk, hkq] using ih

theorem fsLookup_fsWrite_ne (p : FPath) (d : FileData) (fs : FS) (q : FPath)
    (h : q ≠ p) : fsLookup q (fsWrite p d fs) = fsLookup q fs := by
  have : ¬ (p = q) := fun hq => h hq.symm
  simp only [fsWrite, fsLookup, this, if_false]
  exact fsLookup_fsRemove_ne p fs q h

/-- **C8**: For every JSON-compatible `FileMetadata` mapping, writing it with
`_save_file_info` and reading it back with `_open_file_info` yields an equal
mapping, field for field, with unknown keys preserved: the read result is
exactly the written object, so every key (recognized or not) maps to the
value it was written with. -/
theorem save_open_file_info_roundtrip (fname : FPath) (fields : List (String × JsonVal)) (fs : FS) :
    _open_file_info fname (_save_file_info fname (JsonVal.obj fields) fs) =
      Except.ok (JsonVal.obj fields) := by
  simp [_open_file_info, _save_file_info, fsLookup_fsWrite_self]

theorem natListLt_irrefl : ∀ l : List Nat, natListLt l l = false := by
  intro l
  induction l with
  | nil => rfl
  | cons a as ih => simp [natListLt, Nat.lt_irrefl, ih]

theorem dtLt_irrefl (d : DT) : dtLt d d = false := natListLt_irrefl _

/-- Witness for C2 at a concrete 404 response: the error is
`FileNotFoundError` and the (empty) cache state is unchanged. -/
theorem download_failure_witness :
    LocalFiles.download c2srv ["cache"] ["g"] true [] =
      (Except.error PyError.fileNotFoundError, [], []) := by
  simpa [c2srv] using
    download_failure_propagates_state_unchanged c2srv ["cache"] ["g"] true [] (by decide)

/-- **C5 counterexample**: the claim says a transfer whose response omits the
size header treats the size as zero and completes without error; in the
code `size = int(fdown.getheader('content-length'))` evaluates `int(None)`,
which raises `TypeError`, so the download fails instead. -/
theorem download_missing_length_header_raises :
    ServerFiles.download c5srv ["f"] ["cache", "f"] [] = (Except.error PyError.typeError, []) := by
  rfl

/-- **C5 (amended)**: a 200 response without a `content-length` header makes
the download raise `TypeError` (from `int(None)`) and leaves the state
unchanged; only an explicit `content-length` of `0` skips the streaming
loop and completes without error, writing an empty file at the target. -/
theorem download_length_header_behavior (srv : Server) (path target : FPath) (fs : FS)
    (h : srv.status path = 200) :
    (srv.contentLength path = none →
      ServerFiles.download srv path target fs = (Except.error PyError.typeError, fs)) ∧
    (srv.contentLength path = some "0" →
      ServerFiles.download srv path target fs =
        (Except.ok (), fsWrite target (FileData.blob []) fs)) := by
  constructor <;> intro hcl <;> (unfold ServerFiles.download; simp [h, hcl]; try rfl)

/-- Witness for the amended C5 at a concrete header-less 200 response. -/
theorem download_length_header_witness :
    ServerFiles.download c5srv ["g"] ["cache", "g"] [] = (Except.error PyError.typeError, []) :=
  (download_length_header_behavior c5srv ["g"] ["cache", "g"] [] (by decide)).1 (by decide)

theorem extractStep_ok_trace (comp : JsonVal) (target : FPath) (fs : FS)
    (h : (extractStep comp target fs).1 = Except.ok ()) :
    (extractStep comp target fs).2.2 = [Ev.extractStarted, Ev.extractDone, Ev.tmpDeleted] := by
  unfold extractStep at h ⊢
  split <;> simp_all

/-- **C3**: in every download that requires extraction and completes, the
milestones occur in exactly this order: the byte transfer completes, then
the sidecar metadata is persisted, then extraction begins and completes,
and only then is the temporary blob `target + ".tmp"` deleted.  In
particular the sidecar write falls strictly between the transfer and the
extraction, and the temporary blob outlives the extraction. -/
theorem download_extraction_event_order (srv : Server) (sfdir path : FPath) (fs : FS)
    (hc : ((ServerFiles.info srv path).lookup "compression").isSome = true)
    (hok : (LocalFiles.download srv sfdir path true fs).1 = Except.ok ()) :
    (LocalFiles.download srv sfdir path true fs).2.2 =
      [Ev.transferDone, Ev.sidecarSaved, Ev.extractStarted, Ev.extractDone, Ev.tmpDeleted] := by
  unfold LocalFiles.download at hok ⊢
  simp only [hc, Bool.true_and, if_true] at hok ⊢
  rcases hdl : ServerFiles.download srv path
      (addSuffix (LocalFiles.localpath sfdir path) ".tmp") fs with ⟨r, fs1⟩
  rw [hdl] at hok
  cases r with
  | error e => simp at hok
  | ok u =>
    rcases hl : (ServerFiles.info srv path).lookup "compression" with _ | comp
    · simp [hl] at hc
    · simp [hl] at hok
      have ht := extractStep_ok_trace comp (LocalFiles.localpath sfdir path)
        (_save_file_info (addSuffix (LocalFiles.localpath sfdir path) ".info")
          (JsonVal.obj (ServerFiles.info srv path)) fs1) (by simpa using hok)
      simp [ht]

/-- Witness for C3: a concrete successful `gz` download produces exactly the
claimed milestone order. -/
theorem download_extraction_event_order_witness :
    (LocalFiles.download c3srv ["cache"] ["f"] true []).2.2 =
      [Ev.transferDone, Ev.sidecarSaved, Ev.extractStarted, Ev.extractDone, Ev.tmpDeleted] :=
  download_extraction_event_order c3srv ["cache"] ["f"] [] (by rfl) (by rfl)

/-- **C4 counterexample**: the claim says a compression tag other than `gz`,
`bz2`, `tar.gz`, `tar.bz2` makes the operation signal
`UnsupportedCompression`; no such error exists anywhere in the code.  At the
concrete tag `"xz"` the `if`/`elif` chain binds nothing, so `f.close()`
raises `UnboundLocalError` — an accidental crash, not a dedicated signal. -/
theorem download_unsupported_compression_crash :
    (LocalFiles.download c4srv ["cache"] ["f"] true []).1 =
      Except.error PyError.unboundLocalError := by
  rfl

/-- **C4 (amended)**: for every download whose remote metadata declares a
compression value other than `gz`, `bz2`, `tar.gz` or `tar.bz2` (with
extraction enabled and the byte transfer succeeding), the operation fails
with `UnboundLocalError` from `f.close()` — there is no dedicated
`UnsupportedCompression` error in the code — and it does so after the
transfer completed and the sidecar was already persisted (so the temporary
blob is never deleted). -/
theorem download_unsupported_compression (srv : Server) (sfdir path : FPath) (fs : FS)
    (comp : JsonVal) (h200 : srv.status path = 200) (cl : String) (n : Int)
    (hcl : srv.contentLength path = some cl) (hn : pyInt cl = some n)
    (hcomp : (ServerFiles.info srv path).lookup "compression" = some comp)
    (h1 : comp ≠ JsonVal.str "gz") (h2 : comp ≠ JsonVal.str "bz2")
    (h3 : comp ≠ JsonVal.str "tar.gz") (h4 : comp ≠ JsonVal.str "tar.bz2") :
    (LocalFiles.download srv sfdir path true fs).1 = Except.error PyError.unboundLocalError ∧
    (LocalFiles.download srv sfdir path true fs).2.2 = [Ev.transferDone, Ev.sidecarSaved] := by
  have hes : ∀ t f2, extractStep comp t f2 = (Except.error PyError.unboundLocalError, f2, []) := by
    intro t f2
    unfold extractStep
    split <;> simp_all
  unfold LocalFiles.download ServerFiles.download
  simp [h200, hcl, hn, hcomp, hes]

/-- Witness for the amended C4 at a second concrete input (tag `"xz"`). -/
theorem download_unsupported_compression_witness :
    (LocalFiles.download c4srv ["cache"] ["g"] true []).1 =
        Except.error PyError.unboundLocalError ∧
      (LocalFiles.download c4srv ["cache"] ["g"] true []).2.2 =
        [Ev.transferDone, Ev.sidecarSaved] :=
  download_unsupported_compression c4srv ["cache"] ["g"] [] (JsonVal.str "xz") (by rfl)
    "1" 1 (by rfl) (by rfl) (by rfl) (by simp) (by simp) (by simp) (by simp)

theorem string_append_data (a b : String) : (a ++ b).data = a.data ++ b.data := rfl

theorem strAppend_len (a b : String) : (a ++ b).data.length = a.data.length + b.data.length := by
  rw [string_append_data]
  simp

theorem strAppend_info_ne (x : String) : ¬ (x ++ ".info" = x) := by
  intro he
  have hlen := congrArg (fun t : String => t.data.length) he
  simp only [strAppend_len] at hlen
  have h5 : (".info" : String).data.length = 5 := rfl
  rw [h5] at hlen
  omega

theorem strAppend_info_ne_tmp (x : String) : ¬ (x ++ ".info" = x ++ ".tmp") := by
  intro he
  have hlen := congrArg (fun t : String => t.data.length) he
  simp only [strAppend_len] at hlen
  have h5 : (".info" : String).data.length = 5 := rfl
  have h4 : (".tmp" : String).data.length = 4 := rfl
  rw [h5, h4] at hlen
  omega

theorem addSuffix_info_ne_self : ∀ p : FPath, addSuffix p ".info" ≠ p
  | [] => by simp [addSuffix]
  | [x] => by
    simp only [addSuffix, ne_eq, List.cons.injEq, and_true]
    exact strAppend_info_ne x
  | x :: y :: xs => by
    simp only [addSuffix, ne_eq, List.cons.injEq, true_and]
    intro hcon
    exact addSuffix_info_ne_self (y :: xs) hcon

theorem addSuffix_info_ne_tmp : ∀ p : FPath, addSuffix p ".info" ≠ addSuffix p ".tmp"
  | [] => by
    simp only [addSuffix, ne_eq, List.cons.injEq, and_true]
    intro he
    exact absurd (congrArg (fun t : String => t.data.length) he) (by decide)
  | [x] => by
    simp only [addSuffix, ne_eq, List.cons.injEq, and_true]
    exact strAppend_info_ne_tmp x
  | x :: y :: xs => by
    simp only [addSuffix, ne_eq, List.cons.injEq, true_and]
    intro hcon
    exact addSuffix_info_ne_tmp (y :: xs) hcon

theorem lookup_none_of_not_dir_file (o : Option FileData)
    (hd : isDirData o = false) (hf : isFileData o = false) : o = none := by
  cases o with
  | none => rfl
  | some d => cases d <;> simp_all [isDirData, isFileData]

/-- **C6 counterexample**: the claim says a failure while deleting the
artifact does not prevent deletion of the sidecar.  In the code both
deletions sit inside one `try` block, so when `os.remove` on the artifact
raises, the sidecar deletion is skipped: after `remove`, the sidecar is
still present (and the call reports the failure instead of deleting the
rest). -/
theorem remove_artifact_failure_keeps_sidecar :
    fsLookup ["cache", "f.info"] ((LocalFiles.remove c6fail ["cache"] ["f"] c6fs).2.1) =
      some (FileData.jsonText (JsonVal.obj [])) := by
  rfl

/-- **C6 (amended)**: for every path whose sidecar exists, `remove` returns
normally — an OS-level deletion failure is caught, reported and not
propagated; when no deletion fails, both the artifact and the sidecar are
deleted; but a failure while deleting the artifact aborts the rest of the
block, leaving the filesystem unchanged (in particular the sidecar is not
deleted), because both deletions share a single `try` block. -/
theorem remove_failure_behavior (osFail : FPath → Bool) (sfdir path : FPath) (fs : FS)
    (hsc : (fsLookup (addSuffix (LocalFiles.localpath sfdir path) ".info") fs).isSome = true) :
    (LocalFiles.remove osFail sfdir path fs).1 = Except.ok () ∧
    (osFail (LocalFiles.localpath sfdir path) = false →
      osFail (addSuffix (LocalFiles.localpath sfdir path) ".info") = false →
      fsLookup (LocalFiles.localpath sfdir path)
          ((LocalFiles.remove osFail sfdir path fs).2.1) = none ∧
      fsLookup (addSuffix (LocalFiles.localpath sfdir path) ".info")
          ((LocalFiles.remove osFail sfdir path fs).2.1) = none) ∧
    (osFail (LocalFiles.localpath sfdir path) = true →
      (isDirData (fsLookup (LocalFiles.localpath sfdir path) fs) = true ∨
       isFileData (fsLookup (LocalFiles.localpath sfdir path) fs) = true) →
      LocalFiles.remove osFail sfdir path fs = (Except.ok (), fs, true)) := by
  unfold LocalFiles.remove
  refine ⟨?_, ?_, ?_⟩
  · by_cases hd : isDirData (fsLookup (LocalFiles.localpath sfdir path) fs) = true <;>
      by_cases hf : isFileData (fsLookup (LocalFiles.localpath sfdir path) fs) = true <;>
      by_cases hp : osFail (LocalFiles.localpath sfdir path) = true <;>
      by_cases hs : osFail (addSuffix (LocalFiles.localpath sfdir path) ".info") = true <;>
      simp_all
  · intro hp hs
    have hne : LocalFiles.localpath sfdir path ≠
        addSuffix (LocalFiles.localpath sfdir path) ".info" :=
      fun h => addSuffix_info_ne_self _ h.symm
    by_cases hd : isDirData (fsLookup (LocalFiles.localpath sfdir path) fs) = true <;>
      by_cases hf : isFileData (fsLookup (LocalFiles.localpath sfdir path) fs) = true <;>
      simp_all [fsLookup_fsRemove_self, fsLookup_fsRemove_ne]
    all_goals
      first
      | rw [fsLookup_fsRemove_ne _ _ _ hne, fsLookup_fsRemove_self]
      | exact lookup_none_of_not_dir_file _ (by simp_all) (by simp_all)
  · intro hp hdf
    rcases hdf with hd | hf <;> simp_all

/-- Witness for the amended C6 at the concrete failing artifact deletion:
the call still returns normally. -/
theorem remove_failure_behavior_witness :
    (LocalFiles.remove c6fail ["cache"] ["f"] c6fs).1 = Except.ok () :=
  (remove_failure_behavior c6fail ["cache"] ["f"] c6fs (by rfl)).1

theorem string_mk_data (s : String) : String.mk s.data = s := rfl

theorem string_mk_append (a b : List Char) :
    String.mk a ++ String.mk b = String.mk (a ++ b) := rfl

theorem hasInfoSuffix_append (n : String) : hasInfoSuffix (n ++ ".info") = true := by
  unfold hasInfoSuffix
  rw [decide_eq_true_eq, string_append_data]
  have h5 : (".info" : String).data.length = 5 := rfl
  rw [List.length_append, h5, Nat.add_sub_cancel, List.drop_left, string_mk_data]

theorem dropSuffix5_append (n : String) : dropSuffix5 (n ++ ".info") = n := by
  unfold dropSuffix5
  rw [string_append_data]
  have h5 : (".info" : String).data.length = 5 := rfl
  rw [List.length_append, h5, Nat.add_sub_cancel, List.take_left, string_mk_data]

theorem hasInfoSuffix_elim (f : String) (h : hasInfoSuffix f = true) :
    f = dropSuffix5 f ++ ".info" := by
  unfold hasInfoSuffix at h
  rw [decide_eq_true_eq] at h
  unfold dropSuffix5
  rw [← h, string_mk_append, List.take_append_drop, string_mk_data]

theorem relUnder_append (dir : FPath) :
    ∀ rel : FPath, rel ≠ [] → relUnder dir (dir ++ rel) = some rel := by
  induction dir with
  | nil =>
    intro rel h
    cases rel with
    | nil => exact absurd rfl h
    | cons x xs => rfl
  | cons d ds ih =>
    intro rel h
    simp [relUnder, ih rel h]

theorem relUnder_some (dir : FPath) :
    ∀ q rel : FPath, relUnder dir q = some rel → q = dir ++ rel ∧ rel ≠ [] := by
  induction dir with
  | nil =>
    intro q rel h
    cases q with
    | nil => exact absurd h (by simp [relUnder])
    | cons x xs =>
      simp only [relUnder, Option.some.injEq] at h
      subst h
      exact ⟨rfl, by simp⟩
  | cons d ds ih =>
    intro q rel h
    cases q with
    | nil => exact absurd h (by simp [relUnder])
    | cons x xs =>
      simp only [relUnder] at h
      by_cases hx : x = d
      · rw [if_pos hx] at h
        obtain ⟨hq, hne⟩ := ih xs rel h
        exact ⟨by rw [hx, hq]; rfl, hne⟩
      · rw [if_neg hx] at h
        exact absurd h (by simp)

theorem splitLast_append : ∀ (ds : List String) (x : String),
    splitLast (ds ++ [x]) = some (ds, x)
  | [], _ => rfl
  | [d], _ => rfl
  | d :: e :: ds, x => by
    have h := splitLast_append (e :: ds) x
    rw [List.cons_append] at h
    simp only [List.cons_append, splitLast, List.append_eq, h]
    rfl

theorem splitLast_some : ∀ (rel ds : List String) (f : String),
    splitLast rel = some (ds, f) → rel = ds ++ [f]
  | [], _, _ => by simp [splitLast]
  | [x], ds, f => by
    simp only [splitLast, Option.some.injEq, Prod.mk.injEq, and_imp]
    intro h1 h2
    rw [← h1, ← h2]
    rfl
  | x :: y :: xs, ds, f => by
    simp only [splitLast, Option.map_eq_some']
    rintro ⟨⟨ds1, f1⟩, hsl, hpr⟩
    have := splitLast_some (y :: xs) ds1 f1 hsl
    simp only [Prod.mk.injEq] at hpr
    rw [← hpr.1, ← hpr.2, this]
    rfl

theorem fsLookup_eq_of_mem (fs : FS) (hwf : fsWF fs) :
    ∀ e : FPath × FileData, e ∈ fs → fsLookup e.1 fs = some e.2 := by
  induction fs with
  | nil => intro e he; cases he
  | cons a rest ih =>
    intro e he
    rw [fsWF, List.map_cons, List.nodup_cons] at hwf
    rcases List.mem_cons.mp he with he1 | he2
    · subst he1
      simp [fsLookup]
    · have hne : ¬ (a.1 = e.1) := fun hq => hwf.1 (hq ▸ List.mem_map_of_mem Prod.fst he2)
      simp only [fsLookup, hne, if_false]
      exact ih hwf.2 e he2

theorem mem_of_fsLookup (fs : FS) (q : FPath) (d : FileData)
    (h : fsLookup q fs = some d) : (q, d) ∈ fs := by
  induction fs with
  | nil => simp [fsLookup] at h
  | cons a rest ih =>
    by_cases ha : a.1 = q
    · rw [fsLookup, if_pos ha] at h
      have hd : a.2 = d := by injection h
      rw [← ha, ← hd]
      exact List.mem_cons_self a rest
    · rw [fsLookup, if_neg ha] at h
      exact List.mem_cons_of_mem _ (ih h)

/-- `get_lock` preserves the registry invariant. -/
theorem get_lock_WF (t : LockTable) (hwf : t.WF) (k : String) : ((get_lock k t).2).WF := by
  obtain ⟨hid, hnd, hinj⟩ := hwf
  rcases hlk : tblLookup k t.locks with _ | l
  · rw [get_lock_of_none k t hlk]
    refine ⟨?_, ?_, ?_⟩
    · intro e he
      rcases List.mem_append.mp he with h1 | h2
      · obtain ⟨h3, h4⟩ := hid e h1
        exact ⟨Nat.lt_succ_of_lt h3, h4⟩
      · have h2e : e = (k, { id := t.next, kind := t.ctor }) := List.mem_singleton.mp h2
        rw [h2e]
        exact ⟨Nat.lt_succ_self _, rfl⟩
    · simp only [List.map_append, List.map_cons, List.map_nil]
      rw [List.nodup_append]
      refine ⟨hnd, by simp, ?_⟩
      intro a ha hb
      have hak : a = k := by simpa using hb
      rw [hak] at ha
      exact tblLookup_none_not_mem k t.locks hlk ha
    · intro e1 he1 e2 he2 hide
      rcases List.mem_append.mp he1 with h1 | h1 <;>
        rcases List.mem_append.mp he2 with h2 | h2
      · exact hinj e1 h1 e2 h2 hide
      · exfalso
        have h2e : e2 = (k, { id := t.next, kind := t.ctor }) := List.mem_singleton.mp h2
        have hlt := (hid e1 h1).1
        have heq : e1.2.id = t.next := by rw [hide, h2e]
        omega
      · exfalso
        have h1e : e1 = (k, { id := t.next, kind := t.ctor }) := List.mem_singleton.mp h1
        have hlt := (hid e2 h2).1
        have heq : e2.2.id = t.next := by rw [← hide, h1e]
        omega
      · have h1e : e1 = (k, { id := t.next, kind := t.ctor }) := List.mem_singleton.mp h1
        have h2e : e2 = (k, { id := t.next, kind := t.ctor }) := List.mem_singleton.mp h2
        rw [h1e, h2e]
  · rw [get_lock_of_some k t l hlk]
    exact ⟨hid, hnd, hinj⟩

/-- **C9**: the lock table maps each key (canonical absolute local path) to
a reentrant lock created on first use: repeated lookups of the same key
return the same lock object and leave the table unchanged; a lookup of a
different key never returns that key's lock object; entries, once created,
are never removed; and every lock handed out carries the registry's
constructor kind (`RLock` for the module-level `_get_lock`). -/
theorem keyed_lock_registry_properties (t : LockTable) (hwf : t.WF) (k k2 : String) :
    get_lock k ((get_lock k t).2) = ((get_lock k t).1, (get_lock k t).2) ∧
    (k2 ≠ k → (get_lock k2 ((get_lock k t).2)).1 ≠ (get_lock k t).1) ∧
    (∀ e ∈ t.locks, e ∈ ((get_lock k t).2).locks) ∧
    (get_lock k t).1.kind = t.ctor := by
  obtain ⟨hid, hnd, hinj⟩ := hwf
  rcases hlk : tblLookup k t.locks with _ | l
  · rw [get_lock_of_none k t hlk]
    refine ⟨?_, ?_, ?_, ?_⟩
    · exact get_lock_of_some k _ _ (tblLookup_append_self k _ t.locks hlk)
    · intro hkk
      rcases hlk2 : tblLookup k2 t.locks with _ | l2
      · rw [get_lock_of_none k2 _
          (by dsimp only; rw [tblLookup_append_ne k k2 hkk _ t.locks]; exact hlk2)]
        dsimp only
        intro he
        have h1 : t.next + 1 = t.next := congrArg LockObj.id he
        omega
      · rw [get_lock_of_some k2 _ l2
          (by dsimp only; rw [tblLookup_append_ne k k2 hkk _ t.locks]; exact hlk2)]
        dsimp only
        intro he
        have hm := tblLookup_mem k2 l2 t.locks hlk2
        have hlt : l2.id < t.next := (hid (k2, l2) hm).1
        have heq : l2.id = t.next := congrArg LockObj.id he
        omega
    · intro e he
      exact List.mem_append_left _ he
    · rfl
  · rw [get_lock_of_some k t l hlk]
    refine ⟨?_, ?_, ?_, ?_⟩
    · exact get_lock_of_some k t l hlk
    · intro hkk
      rcases hlk2 : tblLookup k2 t.locks with _ | l2
      · rw [get_lock_of_none k2 t hlk2]
        dsimp only
        intro he
        have hm := tblLookup_mem k l t.locks hlk
        have hlt : l.id < t.next := (hid (k, l) hm).1
        have heq : t.next = l.id := congrArg LockObj.id he
        omega
      · rw [get_lock_of_some k2 t l2 hlk2]
        dsimp only
        intro he
        have hm1 := tblLookup_mem k l t.locks hlk
        have hm2 := tblLookup_mem k2 l2 t.locks hlk2
        exact hkk (hinj (k2, l2) hm2 (k, l) hm1 (congrArg LockObj.id he))
    · intro e he
      exact he
    · exact (hid (k, l) (tblLookup_mem k l t.locks hlk)).2

/-- Witness for C9: from the module-level registry, the locks for two
distinct concrete canonical paths are distinct objects. -/
theorem keyed_lock_registry_witness :
    (get_lock "/data/b" ((get_lock "/data/a" _get_lock_init).2)).1 ≠
      (get_lock "/data/a" _get_lock_init).1 :=
  (keyed_lock_registry_properties _get_lock_init
      (by unfold LockTable.WF _get_lock_init _keyed_lock; simp)
      "/data/a" "/data/b").2.1 (by decide)

/-- Extraction never touches the sidecar: it writes the target, deletes the
temporary blob, and both differ from `target + ".info"`. -/
theorem extractStep_sidecar (comp : JsonVal) (target : FPath) (fs : FS) :
    fsLookup (addSuffix target ".info") ((extractStep comp target fs).2.1) =
      fsLookup (addSuffix target ".info") fs := by
  have h1 : addSuffix target ".info" ≠ addSuffix target ".tmp" := addSuffix_info_ne_tmp target
  have h2 : addSuffix target ".info" ≠ target := addSuffix_info_ne_self target
  unfold extractStep
  split <;>
    simp [fsLookup_fsRemove_ne _ _ _ h1, fsLookup_fsWrite_ne _ _ _ _ h2]

/-- After a successful `LocalFiles.download`, the sidecar at
`target + ".info"` holds exactly the remote metadata that was fetched. -/
theorem download_ok_sidecar (srv : Server) (sfdir path : FPath) (x : Bool) (fs : FS)
    (hok : (LocalFiles.download srv sfdir path x fs).1 = Except.ok ()) :
    fsLookup (addSuffix (LocalFiles.localpath sfdir path) ".info")
        ((LocalFiles.download srv sfdir path x fs).2.1) =
      some (FileData.jsonText (JsonVal.obj (ServerFiles.info srv path))) := by
  unfold LocalFiles.download at hok ⊢
  by_cases hde : (x && ((ServerFiles.info srv path).lookup "compression").isSome) = true
  · simp only [hde, if_true] at hok ⊢
    rcases hdl : ServerFiles.download srv path
        (addSuffix (LocalFiles.localpath sfdir path) ".tmp") fs with ⟨r, fs1⟩
    rw [hdl] at hok
    cases r with
    | error e => simp at hok
    | ok u =>
      rcases hl : (ServerFiles.info srv path).lookup "compression" with _ | comp
      · dsimp only
        exact fsLookup_fsWrite_self _ _ _
      · dsimp only
        rw [extractStep_sidecar]
        exact fsLookup_fsWrite_self _ _ _
  · have hde2 : (x && ((ServerFiles.info srv path).lookup "compression").isSome) = false :=
      Bool.not_eq_true _ |>.mp hde
    simp only [hde2, Bool.false_eq_true, if_false] at hok ⊢
    rcases hdl : ServerFiles.download srv path (LocalFiles.localpath sfdir path) fs
      with ⟨r, fs1⟩
    rw [hdl] at hok
    cases r with
    | error e => simp at hok
    | ok u =>
      dsimp only
      exact fsLookup_fsWrite_self _ _ _

/-- When the local sidecar holds exactly the current remote metadata and that
metadata's `datetime` (truncated to 19 characters) parses, the staleness
check compares the timestamp with itself and returns `false`. -/
theorem needs_update_false_of_fresh_sidecar (srv : Server) (sfdir path : FPath) (fs : FS)
    (s : String) (d : DT)
    (hsc : fsLookup (addSuffix (LocalFiles.localpath sfdir path) ".info") fs =
      some (FileData.jsonText (JsonVal.obj (ServerFiles.info srv path))))
    (hs : (ServerFiles.info srv path).lookup "datetime" = some (JsonVal.str s))
    (hd : strptime19 s = some d) :
    LocalFiles.needs_update srv sfdir path fs = Except.ok false := by
  have hattempt : LocalFiles.needs_update_attempt srv sfdir path fs = Except.ok false := by
    unfold LocalFiles.needs_update_attempt LocalFiles.info _open_file_info
    rw [hsc]
    simp only [bind, Except.bind]
    simp [pyGetItem, hs, pyStrptimeField, hd, dtLt_irrefl]
  unfold LocalFiles.needs_update
  rw [hattempt]

/-- **C10**: immediately after a successful download, if the remote metadata
is unchanged and its `datetime` value's first 19 characters parse in the
`%Y-%m-%d %H:%M:%S` format, `needs_update` returns `false`, so `update` is
a no-op right after a fresh download. -/
theorem needs_update_false_after_download (srv : Server) (sfdir path : FPath) (x : Bool)
    (fs : FS) (s : String) (d : DT)
    (hok : (LocalFiles.download srv sfdir path x fs).1 = Except.ok ())
    (hs : (ServerFiles.info srv path).lookup "datetime" = some (JsonVal.str s))
    (hd : strptime19 s = some d) :
    LocalFiles.needs_update srv sfdir path ((LocalFiles.download srv sfdir path x fs).2.1) =
      Except.ok false :=
  needs_update_false_of_fresh_sidecar srv sfdir path _ s d
    (download_ok_sidecar srv sfdir path x fs hok) hs hd

/-- Witness for C10: the concrete `gz` download of `c3srv` followed by the
staleness check returns `false`. -/
theorem needs_update_false_after_download_witness :
    LocalFiles.needs_update c3srv ["cache"] ["f"]
        ((LocalFiles.download c3srv ["cache"] ["f"] true []).2.1) = Except.ok false :=
  needs_update_false_after_download c3srv ["cache"] ["f"] true [] "2020-01-01 00:00:00"
    ⟨2020, 1, 1, 0, 0, 0⟩ (by rfl) (by rfl) (by rfl)


theorem listEntry_eq_some_iff (dir base : FPath) (fs : FS) (q : FPath) (d : FileData)
    (r : FPath) :
    listEntry dir base fs (q, d) = some r ↔
      ∃ ds name v,
        q = dir ++ ds ++ [name ++ ".info"] ∧
        d = FileData.jsonText v ∧
        (fsLookup (dir ++ ds ++ [name]) fs).isSome = true ∧
        r = base ++ ds ++ [name] := by
  constructor
  · intro h
    unfold listEntry at h
    rcases hrel : relUnder dir q with _ | rel
    · rw [hrel] at h; exact absurd h (by simp)
    rw [hrel] at h
    dsimp only at h
    rcases hsl : splitLast rel with _ | ⟨ds, f⟩
    · rw [hsl] at h; exact absurd h (by simp)
    rw [hsl] at h
    dsimp only at h
    by_cases hdir : isDirData (some d) = true
    · rw [if_pos hdir] at h; exact absurd h (by simp)
    rw [if_neg hdir] at h
    by_cases hinfo : hasInfoSuffix f = true
    swap
    · rw [if_neg hinfo] at h; exact absurd h (by simp)
    rw [if_pos hinfo] at h
    by_cases hart : (fsLookup (dir ++ ds ++ [dropSuffix5 f]) fs).isSome = true
    swap
    · rw [if_neg hart] at h; exact absurd h (by simp)
    rw [if_pos hart] at h
    obtain ⟨hq, hne⟩ := relUnder_some dir q rel hrel
    have hself := splitLast_some rel ds f hsl
    cases d with
    | jsonText v =>
      simp only [Option.some.injEq] at h
      refine ⟨ds, dropSuffix5 f, v, ?_, rfl, hart, h.symm⟩
      rw [hq, hself, ← hasInfoSuffix_elim f hinfo, List.append_assoc]
    | malformed => exact absurd h (by simp)
    | blob b => exact absurd h (by simp)
    | extractedFile tg bs => exact absurd h (by simp)
    | extractedDir tg bs => exact absurd h (by simp)
  · rintro ⟨ds, name, v, hq, hd, hart, hr⟩
    subst hq
    subst hd
    subst hr
    unfold listEntry
    have h1 : relUnder dir (dir ++ ds ++ [name ++ ".info"]) =
        some (ds ++ [name ++ ".info"]) := by
      rw [List.append_assoc]
      exact relUnder_append dir _ (by simp)
    rw [h1]
    dsimp only
    rw [splitLast_append]
    simp only [isDirData, hasInfoSuffix_append, dropSuffix5_append, hart, if_true,
      Bool.false_eq_true, if_false]

/-- **C7**: for every well-formed filesystem state, `LocalFiles.listfiles`
yields exactly the relative paths (as segment lists) of `.info` sidecar
files whose corresponding artifact also exists and whose contents parse as
JSON: a returned path always has both halves present with a parseable
sidecar, and every such entry is returned; entries missing their artifact
or sidecar, or with a malformed sidecar, are silently skipped. -/
theorem listfiles_exactly_valid_entries (sfdir base : FPath) (fs : FS) (hwf : fsWF fs)
    (r : FPath) :
    r ∈ LocalFiles.listfiles sfdir base fs ↔
      ∃ ds name v,
        fsLookup (sfdir ++ base ++ ds ++ [name ++ ".info"]) fs =
          some (FileData.jsonText v) ∧
        (fsLookup (sfdir ++ base ++ ds ++ [name]) fs).isSome = true ∧
        r = base ++ ds ++ [name] := by
  constructor
  · intro hr
    rw [LocalFiles.listfiles, List.mem_filterMap] at hr
    obtain ⟨e, he, hfe⟩ := hr
    obtain ⟨q, d⟩ := e
    rw [listEntry_eq_some_iff] at hfe
    obtain ⟨ds, name, v, h1, h2, h3, h4⟩ := hfe
    refine ⟨ds, name, v, ?_, h3, h4⟩
    have hlk := fsLookup_eq_of_mem fs hwf (q, d) he
    rw [h1, h2] at hlk
    exact hlk
  · rintro ⟨ds, name, v, h1, h2, h3⟩
    rw [LocalFiles.listfiles, List.mem_filterMap]
    refine ⟨(sfdir ++ base ++ ds ++ [name ++ ".info"], FileData.jsonText v),
      mem_of_fsLookup _ _ _ h1, ?_⟩
    rw [listEntry_eq_some_iff]
    exact ⟨ds, name, v, rfl, rfl, h2, h3⟩

/-- Witness for C7: in `c7fs` the path `["a", "f"]` is listed (both halves
present, sidecar parses). -/
theorem listfiles_exactly_valid_entries_witness :
    ["a", "f"] ∈ LocalFiles.listfiles ["cache"] [] c7fs :=
  (listfiles_exactly_valid_entries ["cache"] [] c7fs (by unfold fsWF; decide) ["a", "f"]).mpr
    ⟨["a"], "f", JsonVal.obj [], by rfl, by rfl, by rfl⟩
